import Mathlib

/-!
Verification development for the `Range` interval abstract domain of the
wrapped-intervals analyzer (`src/trunk/include/Range.h`).

A `Range` represents a set of fixed-width two's-complement integers as a
closed interval `[lb, ub]` over `width`-bit values, plus explicit `isTop`
and `isBot` flags that are tracked independently of the bounds.

Machine words (`llvm::APInt` in the source) are embedded as natural-number
bit patterns `x < 2^width`; the signed reading of a pattern is given by
`toSigned`.  Operations whose bodies appear in the header (`normalize`,
`comparisonUleDoNotCrossSP`, `comparisonUltDoNotCrossSP`, `GeneralizedJoin`,
the constructor branch structure, `WideningMethod`) are translated directly
from the source; operations only declared there (`join`,
`visitArithBinaryOp`, the `BaseRange` flag/bound setters) are modelled from
the specification and marked as such in their doc comments.
-/

namespace Unimelb

/-- Signed (two's-complement) value of the `w`-bit pattern `x`
(`APInt::getSExtValue` semantics): patterns below `2^(w-1)` are
non-negative, the rest represent `x - 2^w`. -/
def toSigned (w x : Nat) : Int :=
  if x < 2 ^ (w - 1) then (x : Int) else (x : Int) - 2 ^ w

/-- The `w`-bit pattern of integer `v`, i.e. `v mod 2^w` (`APInt` wraparound
construction). -/
def toPattern (w : Nat) (v : Int) : Nat :=
  (v % (2 ^ w : Int)).toNat

/-- The interval abstract value of `Range.h`: a bit-width, the `isSigned`
interpretation flag, lower/upper bound bit patterns (`getLB()`/`getUB()`),
and the explicit `IsTop()`/`isBot()` flags, which are stored separately from
the bounds (a concrete interval whose bounds happen to equal `[MIN,MAX]` is
distinct from `Top`, per the header comment at `Range.h:18-25`). -/
structure Range where
  width : Nat
  isSigned : Bool
  lb : Nat
  ub : Nat
  isTop : Bool
  isBot : Bool
deriving Repr, DecidableEq

/-- Modelled from the spec: `BaseRange::makeTop` (declared at `Range.h:157`,
body not under `src/`) forces the explicit Top flag and clears the Bottom
flag ("force the explicit flag, clearing bound state", spec §4.1). -/
def Range.makeTop (r : Range) : Range :=
  { r with isTop := true, isBot := false }

/-- Modelled from the spec: `BaseRange::makeBot` (declared at `Range.h:156`,
body not under `src/`) forces the explicit Bottom flag. -/
def Range.makeBot (r : Range) : Range :=
  { r with isTop := false, isBot := true }

/-- Membership test for the concretization of a `Range` (spec glossary:
"the set of concrete integers an abstract value represents", here as
`width`-bit patterns): Bottom denotes the empty set, Top all `2^width`
patterns, and a concrete interval the patterns between `lb` and `ub` in the
order selected by `isSigned`. -/
def Range.gammaMem (r : Range) (x : Nat) : Bool :=
  if r.isBot then false
  else if r.isTop then decide (x < 2 ^ r.width)
  else if r.isSigned then
    decide (x < 2 ^ r.width) &&
    decide (toSigned r.width r.lb ≤ toSigned r.width x) &&
    decide (toSigned r.width x ≤ toSigned r.width r.ub)
  else
    decide (x < 2 ^ r.width) && decide (r.lb ≤ x) && decide (x ≤ r.ub)

/-- The concretization of a `Range`, as a set of `width`-bit patterns. -/
def Range.gamma (r : Range) : Set Nat :=
  { x | r.gammaMem x = true }

/-- Translation of `Range::normalize` (`Range.h:133-150`): Top and Bottom
are returned unchanged; a signed interval whose bounds are the patterns of
`APInt::getSignedMinValue`/`getSignedMaxValue` (patterns `2^(w-1)` and
`2^(w-1)-1`) collapses to Top, an unsigned interval whose bounds are
`APInt::getMinValue`/`getMaxValue` (patterns `0` and `2^w-1`) collapses to
Top, and every other interval is returned unchanged. -/
def Range.normalize (r : Range) : Range :=
  if r.isTop then r
  else if r.isBot then r
  else if r.isSigned then
    if r.lb = 2 ^ (r.width - 1) ∧ r.ub = 2 ^ (r.width - 1) - 1 then r.makeTop
    else r
  else
    if r.lb = 0 ∧ r.ub = 2 ^ r.width - 1 then r.makeTop
    else r

/-- Translation of `Range::comparisonUleDoNotCrossSP` (`Range.h:218-222`):
`[a,b] <= [c,d]` if `a.ule(d)`; `APInt::ule` is unsigned comparison of bit
patterns, i.e. `Nat` order. -/
def comparisonUleDoNotCrossSP (a _b _c d : Nat) : Bool :=
  decide (a ≤ d)

/-- Translation of `Range::comparisonUltDoNotCrossSP` (`Range.h:224-228`):
`[a,b] < [c,d]` if `a.ult(d)`. -/
def comparisonUltDoNotCrossSP (a _b _c d : Nat) : Bool :=
  decide (a < d)

/-- The widening technique enumeration (`Range.h:51`). -/
inductive WideningOpts
  | NOWIDEN
  | COUSOT76
  | JUMPSET
deriving Repr, DecidableEq

/-- The numeric tag of each enumerator (`NOWIDEN = 10, COUSOT76 = 11,
JUMPSET = 12`, `Range.h:51`). -/
def WideningOpts.toTag : WideningOpts → Nat
  | .NOWIDEN => 10
  | .COUSOT76 => 11
  | .JUMPSET => 12

/-- Translation of the process-wide widening policy constant
(`Range.h:52`): `const WideningOpts WideningMethod = JUMPSET`. -/
def WideningMethod : WideningOpts := .JUMPSET

/-- Translation of `Range::GeneralizedJoin` (`Range.h:160-162`): the body is
`assert(false && "This is a lattice so this method should not be called")`;
the assertion failure is embedded as an `Except.error` carrying the
assertion message, produced for every argument vector. -/
def Range.GeneralizedJoin (_r : Range) (_vs : List Range) :
    Except String Unit :=
  .error "This is a lattice so this method should not be called"

/-- Lower-bound combination for `join`: the minimum of the two bound
patterns under the interpretation selected by `signed` (signed order via
`toSigned`, unsigned order via `Nat` order). -/
def boundMin (signed : Bool) (w a b : Nat) : Nat :=
  if signed then (if toSigned w a ≤ toSigned w b then a else b)
  else min a b

/-- Upper-bound combination for `join`: the maximum of the two bound
patterns under the interpretation selected by `signed`. -/
def boundMax (signed : Bool) (w a b : Nat) : Nat :=
  if signed then (if toSigned w a ≤ toSigned w b then b else a)
  else max a b

/-- Modelled from the spec: the body of `Range::join` (declared at
`Range.h:159`, defined in a `.cpp` file not under `src/`).  Per spec §4.1,
`join` mutates the receiver in place; `Bottom ⊔ X = X`, `Top ⊔ X = Top`, and
for two concrete intervals the result bounds are the (wraparound-aware)
pairwise minimum of the lower bounds and maximum of the upper bounds, taken
in the order selected by the receiver's sign interpretation.  The mutated
receiver is returned as the result value. -/
def Range.join (self v : Range) : Range :=
  if self.isBot then v
  else if v.isBot then self
  else if self.isTop || v.isTop then self.makeTop
  else
    { self with
      lb := boundMin self.isSigned self.width self.lb v.lb,
      ub := boundMax self.isSigned self.width self.ub v.ub }

/-- The three-valued boolean abstract domain (`TBool`), external to the
interval domain; only the `isTrue`/`isFalse` observations are used by
`Range`. -/
inductive TBool
  | tbTrue
  | tbFalse
  | tbMaybe
deriving Repr, DecidableEq

/-- The `TBool::isTrue` observation. -/
def TBool.isTrue : TBool → Bool
  | .tbTrue => true
  | _ => false

/-- The `TBool::isFalse` observation. -/
def TBool.isFalse : TBool → Bool
  | .tbFalse => true
  | _ => false

/-- Modelled from the spec: `BaseRange::setLB` (declared at `Range.h:126`,
body not under `src/`) stores the given bound pattern as the lower bound;
per spec §3 lifecycle, a constructor that sets both bounds produces a
concrete (non-Top, non-Bottom) singleton, so setting a bound clears the
explicit flags. -/
def Range.setLB (r : Range) (x : Nat) : Range :=
  { r with lb := x, isTop := false, isBot := false }

/-- Modelled from the spec: `BaseRange::setUB` (declared at `Range.h:127`,
body not under `src/`); see `Range.setLB`. -/
def Range.setUB (r : Range) (x : Nat) : Range :=
  { r with ub := x, isTop := false, isBot := false }

/-- Modelled from the spec: the `BaseRange(V, IsSigned, true)` base
initialization used by the `Range(Value*, ...)` constructors (not under
`src/`); per spec §3, a `Range` created from a program value is initialized
to Top ("unconstrained"). -/
def Range.fromValue (w : Nat) (isSigned : Bool) : Range :=
  { width := w,
    isSigned := isSigned,
    lb := 0,
    ub := 0,
    isTop := true,
    isBot := false }

/-- Translation of the constructor `Range(Value *V, TBool *B, bool
IsSigned)` body (`Range.h:77-92`), after the signedness assertion: starting
from the Top-initialized base, if `B->isTrue()` set `LB = UB = 1`, else if
`B->isFalse()` set `LB = UB = 0`, else `makeTop()`. -/
def Range.fromTBool (w : Nat) (B : TBool) : Range :=
  let base := Range.fromValue w true
  if B.isTrue then (base.setLB 1).setUB 1
  else if B.isFalse then (base.setLB 0).setUB 0
  else base.makeTop

/-- Translation of the constructor `Range(Value *V, bool IsSigned)`
(`Range.h:60-66`): `assert(IsSigned && "Intervals must be signed")` is
embedded as `Except.error` with the assertion message. -/
def mkRangeFromValue (w : Nat) (isSigned : Bool) : Except String Range :=
  if isSigned then .ok (Range.fromValue w isSigned)
  else .error "Intervals must be signed"

/-- Translation of the constructor `Range(const ConstantInt *C, unsigned
Width, bool IsSigned)` (`Range.h:70-73`): asserts signedness; the
`BaseRange(C, Width, IsSigned, true)` base (not under `src/`) is modelled
from the spec §6 construction interface as the singleton interval of the
constant. -/
def mkRangeFromConstant (c : Int) (w : Nat) (isSigned : Bool) :
    Except String Range :=
  if isSigned then
    .ok { width := w,
          isSigned := isSigned,
          lb := toPattern w c,
          ub := toPattern w c,
          isTop := false,
          isBot := false }
  else .error "Intervals must be signed"

/-- Translation of the constructor `Range(Value *V, TBool *B, bool
IsSigned)` (`Range.h:77-92`): asserts signedness, then builds from the
three-valued boolean (`Range.fromTBool`). -/
def mkRangeFromTBool (w : Nat) (B : TBool) (isSigned : Bool) :
    Except String Range :=
  if isSigned then .ok (Range.fromTBool w B)
  else .error "Intervals must be signed"

/-- Translation of the constructor `Range(APInt lb, APInt ub, unsigned
Width, bool IsSigned)` (`Range.h:100-103`): asserts signedness; the base
stores the two bound patterns as a concrete interval. -/
def mkRangeFromAPInts (lb ub w : Nat) (isSigned : Bool) :
    Except String Range :=
  if isSigned then
    .ok { width := w,
          isSigned := isSigned,
          lb := lb,
          ub := ub,
          isTop := false,
          isBot := false }
  else .error "Intervals must be signed"

/-- Translation of the copy constructor `Range(const Range& other)`
(`Range.h:95-96`): copies every field and performs no signedness
assertion. -/
def Range.copy (r : Range) : Range := r

/-- The arithmetic opcodes dispatched by `visitArithBinaryOp`
(`Range.h:187-194`): addition, subtraction, multiplication,
signed/unsigned division, signed/unsigned remainder. -/
inductive ArithOp
  | add
  | sub
  | mul
  | sdiv
  | udiv
  | srem
  | urem
deriving Repr, DecidableEq

/-- Smallest signed value representable in `w` bits. -/
def sMinInt (w : Nat) : Int := -(2 ^ (w - 1) : Int)

/-- Largest signed value representable in `w` bits. -/
def sMaxInt (w : Nat) : Int := (2 ^ (w - 1) : Int) - 1

/-- Build the result interval of an arithmetic transfer function from the
true (unbounded) signed bounds `lo ≤ hi`, at the receiver's width: if a
bound exceeds the representable `w`-bit signed range the overflow flag is
raised and the result is Top (spec §4.4 overflow policy); otherwise the
bounds are stored as a concrete interval. -/
def Range.ofSignedBounds (r : Range) (lo hi : Int) : Range :=
  if lo < sMinInt r.width ∨ sMaxInt r.width < hi then r.makeTop
  else
    { r with
      lb := toPattern r.width lo,
      ub := toPattern r.width hi,
      isTop := false,
      isBot := false }

/-- True iff the signed reading of the interval contains both a negative
and a non-negative value, so its pattern set wraps past the north pole and
has no direct unsigned reading (spec §4.3). -/
def Range.crossesNorthPoleSigned (r : Range) : Bool :=
  decide (toSigned r.width r.lb < 0) && decide (0 ≤ toSigned r.width r.ub)

/-- Modelled from the spec: `DoArithBinaryOp` together with
`DoMultiplication`, `DoDivision` and `DoRem` (declared at
`Range.h:191-194`, defined in a `.cpp` file not under `src/`).  Per spec
§4.4: each operation computes sound output bounds from the operands'
signed bounds and overflows into Top when a true bound leaves the
representable range; multiplication and division take the extremal corner
combination; division and remainder exclude zero from the divisor's
effective range and yield Bottom when the divisor range is exactly `{0}`;
the unsigned operations require the operands' pattern sets not to wrap
(otherwise Top). -/
def Range.DoArithBinaryOp (A B : Range) (op : ArithOp) : Range :=
  let w := A.width
  let la := toSigned w A.lb
  let ua := toSigned w A.ub
  let lc := toSigned w B.lb
  let uc := toSigned w B.ub
  match op with
  | .add => A.ofSignedBounds (la + lc) (ua + uc)
  | .sub => A.ofSignedBounds (la - uc) (ua - lc)
  | .mul =>
    let ps := [la * lc, la * uc, ua * lc, ua * uc]
    A.ofSignedBounds (ps.foldl min (la * lc)) (ps.foldl max (la * lc))
  | .sdiv =>
    if lc = 0 ∧ uc = 0 then A.makeBot
    else
      let ds := [lc, uc, -1, 1].filter (fun d => d ≠ 0 ∧ lc ≤ d ∧ d ≤ uc)
      let qs := ds.flatMap (fun d => [Int.tdiv la d, Int.tdiv ua d])
      match qs with
      | [] => A.makeBot
      | q :: rest =>
        A.ofSignedBounds (rest.foldl min q) (rest.foldl max q)
  | .udiv =>
    if A.crossesNorthPoleSigned || B.crossesNorthPoleSigned then A.makeTop
    else if B.ub = 0 then A.makeBot
    else
      { A with
        lb := A.lb / B.ub,
        ub := A.ub / max B.lb 1,
        isTop := false,
        isBot := false }
  | .srem =>
    if lc = 0 ∧ uc = 0 then A.makeBot
    else
      let m := max lc.natAbs uc.natAbs - 1
      A.ofSignedBounds (if la < 0 then -(m : Int) else 0)
                       (if 0 < ua then (m : Int) else 0)
  | .urem =>
    if A.crossesNorthPoleSigned || B.crossesNorthPoleSigned then A.makeTop
    else if B.ub = 0 then A.makeBot
    else
      { A with
        lb := 0,
        ub := B.ub - 1,
        isTop := false,
        isBot := false }

/-- Modelled from the spec: the body of `Range::visitArithBinaryOp`
(declared at `Range.h:189-190`, defined in a `.cpp` file not under
`src/`).  Per the header comment (`Range.h:18-25`) and spec §4.4: if either
operand has its explicit Top flag set, the result is Top directly, with no
bound computation; otherwise the bound computation (`DoArithBinaryOp`) is
carried out normally — also when an operand's bounds merely equal
`[MIN,MAX]` without the flag — and may itself overflow into Top. -/
def Range.visitArithBinaryOp (A B : Range) (op : ArithOp) : Range :=
  if A.isTop || B.isTop then A.makeTop
  else A.DoArithBinaryOp B op

/-- The 8-bit concrete interval whose bounds equal the full signed range
`[MIN,MAX] = [-128,127]` (patterns `[128,127]`) with the Top flag NOT set. -/
def fullRange8 : Range :=
  { width := 8,
    isSigned := true,
    lb := 128,
    ub := 127,
    isTop := false,
    isBot := false }

/-- The 8-bit explicit Top value. -/
def top8 : Range :=
  { width := 8,
    isSigned := true,
    lb := 0,
    ub := 0,
    isTop := true,
    isBot := false }

/-- The 8-bit singleton interval `[1,1]`. -/
def one8 : Range :=
  { width := 8,
    isSigned := true,
    lb := 1,
    ub := 1,
    isTop := false,
    isBot := false }

/-! ## Theorems -/

/-- C5: `normalize` collapses a concrete interval whose bounds equal the
full signed range (for a signed interval) or the full unsigned range (for
an unsigned interval) into Top, and leaves every other interval — Top and
Bottom inputs and all other concrete intervals — unchanged. -/
theorem normalize_spec (r : Range) :
    (r.isTop = true → r.normalize = r) ∧
    (r.isBot = true → r.normalize = r) ∧
    (r.isTop = false → r.isBot = false → r.isSigned = true →
      r.lb = 2 ^ (r.width - 1) → r.ub = 2 ^ (r.width - 1) - 1 →
      r.normalize = r.makeTop ∧ r.normalize.isTop = true) ∧
    (r.isTop = false → r.isBot = false → r.isSigned = false →
      r.lb = 0 → r.ub = 2 ^ r.width - 1 →
      r.normalize = r.makeTop ∧ r.normalize.isTop = true) ∧
    (r.isTop = false → r.isBot = false → r.isSigned = true →
      ¬(r.lb = 2 ^ (r.width - 1) ∧ r.ub = 2 ^ (r.width - 1) - 1) →
      r.normalize = r) ∧
    (r.isTop = false → r.isBot = false → r.isSigned = false →
      ¬(r.lb = 0 ∧ r.ub = 2 ^ r.width - 1) →
      r.normalize = r) := by
  refine ⟨?_, ?_, ?_, ?_, ?_, ?_⟩ <;> intros <;>
    simp_all [Range.normalize, Range.makeTop]

/-- Witness for C5 at concrete inputs: the 8-bit signed full range
`[-128,127]` (patterns `[128,127]`) collapses to Top, and `[5,10]` is left
unchanged. -/
theorem normalize_spec_witness :
    Range.normalize fullRange8 = fullRange8.makeTop ∧
    Range.normalize ⟨8, true, 5, 10, false, false⟩ =
      ⟨8, true, 5, 10, false, false⟩ :=
  ⟨((normalize_spec fullRange8).2.2.1 rfl rfl rfl (by decide) (by decide)).1,
   (normalize_spec ⟨8, true, 5, 10, false, false⟩).2.2.2.2.1 rfl rfl rfl
     (by decide)⟩

/-- C6: for all `w`-bit patterns `a, b, c, d`,
`comparisonUleDoNotCrossSP([a,b],[c,d])` returns true iff `a` is
unsigned-less-or-equal to `d`, and `comparisonUltDoNotCrossSP` returns true
iff `a` is unsigned-strictly-less-than `d` (unsigned order on `w`-bit
patterns is `Nat` order). -/
theorem comparisonDoNotCrossSP_spec (w a b c d : Nat)
    (ha : a < 2 ^ w) (hb : b < 2 ^ w) (hc : c < 2 ^ w) (hd : d < 2 ^ w) :
    (comparisonUleDoNotCrossSP a b c d = true ↔ a ≤ d) ∧
    (comparisonUltDoNotCrossSP a b c d = true ↔ a < d) := by
  simp [comparisonUleDoNotCrossSP, comparisonUltDoNotCrossSP]

/-- Witness for C6 at 8-bit patterns `a = 3, b = 5, c = 0, d = 7`. -/
theorem comparisonDoNotCrossSP_spec_witness :
    (comparisonUleDoNotCrossSP 3 5 0 7 = true ↔ 3 ≤ 7) ∧
    (comparisonUltDoNotCrossSP 3 5 0 7 = true ↔ 3 < 7) :=
  comparisonDoNotCrossSP_spec 8 3 5 0 7 (by decide) (by decide) (by decide)
    (by decide)

/-- C7: `GeneralizedJoin` fails with the fatal assertion for every receiver
and every argument vector; it never computes an n-ary join. -/
theorem generalizedJoin_always_fails (r : Range) (vs : List Range) :
    r.GeneralizedJoin vs =
      .error "This is a lattice so this method should not be called" :=
  rfl

/-- C9: the process-wide widening policy constant `WideningMethod` is the
`JUMPSET` strategy (enumerator tag 12). -/
theorem wideningMethod_is_jumpset :
    WideningMethod = WideningOpts.JUMPSET ∧ WideningMethod.toTag = 12 :=
  ⟨rfl, rfl⟩

/-- C4: the constructor taking a `TBool` produces the singleton interval
`[1,1]` when the boolean is true, the singleton `[0,0]` when it is false,
and Top when it is unknown. -/
theorem mkRangeFromTBool_spec (w : Nat) :
    mkRangeFromTBool w .tbTrue true =
      .ok ⟨w, true, 1, 1, false, false⟩ ∧
    mkRangeFromTBool w .tbFalse true =
      .ok ⟨w, true, 0, 0, false, false⟩ ∧
    (Range.fromTBool w .tbMaybe).isTop = true ∧
    mkRangeFromTBool w .tbMaybe true = .ok (Range.fromValue w true).makeTop :=
  ⟨rfl, rfl, rfl, rfl⟩

/-- C8: each of the four constructors that take an `IsSigned` flag returns
the assertion failure when the flag is false, every successfully
constructed `Range` is signed, and the copy constructor (which takes no
flag) preserves the signedness of its source. -/
theorem constructors_require_signed :
    (∀ w, mkRangeFromValue w false = .error "Intervals must be signed") ∧
    (∀ c w, mkRangeFromConstant c w false =
      .error "Intervals must be signed") ∧
    (∀ w B, mkRangeFromTBool w B false =
      .error "Intervals must be signed") ∧
    (∀ lb ub w, mkRangeFromAPInts lb ub w false =
      .error "Intervals must be signed") ∧
    (∀ w s r, mkRangeFromValue w s = .ok r → r.isSigned = true) ∧
    (∀ c w s r, mkRangeFromConstant c w s = .ok r → r.isSigned = true) ∧
    (∀ w B s r, mkRangeFromTBool w B s = .ok r → r.isSigned = true) ∧
    (∀ lb ub w s r, mkRangeFromAPInts lb ub w s = .ok r →
      r.isSigned = true) ∧
    (∀ r : Range, r.copy.isSigned = r.isSigned) := by
  refine ⟨fun w => rfl, fun c w => rfl, fun w B => rfl, fun lb ub w => rfl,
    ?_, ?_, ?_, ?_, fun r => rfl⟩
  · intro w s r h
    cases s <;> simp_all [mkRangeFromValue, Range.fromValue]
    exact h.symm ▸ rfl
  · intro c w s r h
    cases s <;> simp_all [mkRangeFromConstant]
    exact h.symm ▸ rfl
  · intro w B s r h
    cases s <;> simp_all [mkRangeFromTBool]
    cases B <;> simp_all [Range.fromTBool, Range.fromValue, Range.setLB,
      Range.setUB, Range.makeTop, TBool.isTrue, TBool.isFalse] <;>
      exact h.symm ▸ rfl
  · intro lb ub w s r h
    cases s <;> simp_all [mkRangeFromAPInts]
    exact h.symm ▸ rfl

/-- Witness for C8 at concrete inputs: the value constructor at width 8
with `IsSigned = false` fails with the assertion message. -/
theorem constructors_require_signed_witness :
    mkRangeFromValue 8 false = .error "Intervals must be signed" :=
  constructors_require_signed.1 8

/-- Every pattern in a concretization is a `width`-bit pattern. -/
theorem gammaMem_lt_width (r : Range) (x : Nat) (h : r.gammaMem x = true) :
    x < 2 ^ r.width := by
  unfold Range.gammaMem at h
  split_ifs at h <;> simp_all

/-- C2: Bottom joined with X equals X; Top joined with X yields Top; for
two concrete intervals the result keeps the receiver's flags and its bounds
are the pairwise minimum of the lower bounds and maximum of the upper
bounds under the receiver's (wraparound-aware) sign interpretation; and on
8-bit signed `A = [5,5]`, `B = [10,10]`, `join(A,B) = [5,10]`. -/
theorem join_definition (A B : Range) :
    (A.isBot = true → A.join B = B) ∧
    (A.isTop = true → A.isBot = false → (A.join B).isTop = true) ∧
    (A.isBot = false → B.isBot = false → A.isTop = false → B.isTop = false →
      A.join B =
        { A with
          lb := boundMin A.isSigned A.width A.lb B.lb,
          ub := boundMax A.isSigned A.width A.ub B.ub }) ∧
    Range.join ⟨8, true, 5, 5, false, false⟩ ⟨8, true, 10, 10, false, false⟩ =
      ⟨8, true, 5, 10, false, false⟩ := by
  refine ⟨?_, ?_, ?_, by decide⟩
  · intro h
    simp [Range.join, h]
  · intro hT hB
    by_cases hvB : B.isBot = true <;>
      simp [Range.join, hT, hB, hvB, Range.makeTop]
  · intro h1 h2 h3 h4
    simp [Range.join, h1, h2, h3, h4]

/-- Witness for C2 at concrete inputs: Bottom joined with `[1,1]` equals
`[1,1]`, and Top joined with `[1,1]` is Top. -/
theorem join_definition_witness :
    Range.join ⟨8, true, 0, 0, false, true⟩ one8 = one8 ∧
    (Range.join top8 one8).isTop = true :=
  ⟨(join_definition ⟨8, true, 0, 0, false, true⟩ one8).1 rfl,
   (join_definition top8 one8).2.1 rfl rfl⟩

/-- C1: soundness of `join`: for concrete intervals over the same width and
signedness, every pattern in the concretization of either operand is in the
concretization of the join. -/
theorem join_sound (A B : Range) (x : Nat)
    (hw : A.width = B.width) (hs : A.isSigned = B.isSigned)
    (hx : A.gammaMem x = true ∨ B.gammaMem x = true) :
    (A.join B).gammaMem x = true := by
  have hxw : x < 2 ^ A.width := by
    rcases hx with h | h
    · exact gammaMem_lt_width A x h
    · rw [hw]; exact gammaMem_lt_width B x h
  unfold Range.join
  by_cases hA : A.isBot = true
  · rcases hx with h | h
    · simp [Range.gammaMem, hA] at h
    · simpa [hA] using h
  by_cases hB : B.isBot = true
  · rcases hx with h | h
    · simpa [hA, hB] using h
    · simp [Range.gammaMem, hB] at h
  by_cases hT : (A.isTop || B.isTop) = true
  · simp [hA, hB, hT, Range.gammaMem, Range.makeTop, hxw]
  have hT1 : A.isTop = false := by
    cases hAt : A.isTop <;> simp_all
  have hT2 : B.isTop = false := by
    cases hBt : B.isTop <;> simp_all
  have hA0 : A.isBot = false := by
    cases hAb : A.isBot <;> simp_all
  have hB0 : B.isBot = false := by
    cases hBb : B.isBot <;> simp_all
  simp only [hA0, hB0, hT1, hT2, Bool.or_self, if_false,
    Bool.false_eq_true]
  cases hsg : A.isSigned
  · -- unsigned interpretation: Nat order on patterns
    rcases hx with h | h <;>
      simp_all [Range.gammaMem, boundMin, boundMax]
  · -- signed interpretation: order via toSigned
    have hsB : B.isSigned = true := by rw [← hs, hsg]
    rcases hx with h | h
    · simp only [Range.gammaMem, hA0, hT1, hsg, Bool.false_eq_true,
        if_false, if_true, Bool.and_eq_true, decide_eq_true_eq] at h
      obtain ⟨⟨_, h1⟩, h2⟩ := h
      simp only [Range.gammaMem, hA0, hT1, hsg, Bool.false_eq_true,
        if_false, if_true, Bool.and_eq_true, decide_eq_true_eq,
        boundMin, boundMax]
      refine ⟨⟨hxw, ?_⟩, ?_⟩
      · split_ifs with hc <;> omega
      · split_ifs with hc <;> omega
    · simp only [Range.gammaMem, hB0, hT2, hsB, Bool.false_eq_true,
        if_false, if_true, Bool.and_eq_true, decide_eq_true_eq, ← hw] at h
      obtain ⟨⟨_, h1⟩, h2⟩ := h
      simp only [Range.gammaMem, hA0, hT1, hsg, Bool.false_eq_true,
        if_false, if_true, Bool.and_eq_true, decide_eq_true_eq,
        boundMin, boundMax]
      refine ⟨⟨hxw, ?_⟩, ?_⟩
      · split_ifs with hc <;> omega
      · split_ifs with hc <;> omega

/-- Witness for C1 at concrete inputs: `5` is in the concretization of
`[5,5]`, hence in the concretization of `join([5,5],[10,10]) = [5,10]`. -/
theorem join_sound_witness :
    (Range.join ⟨8, true, 5, 5, false, false⟩
      ⟨8, true, 10, 10, false, false⟩).gammaMem 5 = true :=
  join_sound ⟨8, true, 5, 5, false, false⟩ ⟨8, true, 10, 10, false, false⟩ 5
    rfl rfl (Or.inl (by decide))

/-- C3: if an operand of `visitArithBinaryOp` has its explicit Top flag
set, the result is Top directly (independent of the opcode and of both
operands' bounds, with no bound computation); if neither flag is set, the bound
computation `DoArithBinaryOp` is carried out normally, even when the bounds
merely equal `[MIN,MAX]` — and there it may overflow into Top, as on 8-bit
`[MIN,MAX] + [1,1]`; in particular any arithmetic opcode on (Top, `[1,1]`)
yields Top. -/
theorem visitArith_top_vs_fullrange (A B : Range) (op : ArithOp) :
    (A.isTop = true ∨ B.isTop = true →
      A.visitArithBinaryOp B op = A.makeTop) ∧
    (A.isTop = false → B.isTop = false →
      A.visitArithBinaryOp B op = A.DoArithBinaryOp B op) ∧
    fullRange8.isTop = false ∧
    (fullRange8.visitArithBinaryOp one8 .add).isTop = true ∧
    fullRange8.visitArithBinaryOp one8 .add =
      fullRange8.DoArithBinaryOp one8 .add ∧
    (top8.visitArithBinaryOp one8 op).isTop = true := by
  refine ⟨?_, ?_, rfl, by decide, by decide, ?_⟩
  · intro h
    rcases h with h | h <;> simp [Range.visitArithBinaryOp, h]
  · intro h1 h2
    simp [Range.visitArithBinaryOp, h1, h2]
  · simp [Range.visitArithBinaryOp, top8, Range.makeTop]

/-- Witness for C3 at concrete inputs: Top + `[1,1]` short-circuits to Top,
while the unflagged full range `[MIN,MAX] + [1,1]` goes through the bound
computation. -/
theorem visitArith_top_vs_fullrange_witness :
    top8.visitArithBinaryOp one8 .add = top8.makeTop ∧
    fullRange8.visitArithBinaryOp one8 .add =
      fullRange8.DoArithBinaryOp one8 .add :=
  ⟨(visitArith_top_vs_fullrange top8 one8 .add).1 (Or.inl rfl),
   (visitArith_top_vs_fullrange fullRange8 one8 .add).2.1 rfl rfl⟩

/-- The `normalize` of a Top-flagged interval is itself. -/
theorem normalize_of_isTop (r : Range) (h : r.isTop = true) :
    r.normalize = r := by
  simp [Range.normalize, h]

/-- The result of `normalize` is either the input or its `makeTop`. -/
theorem normalize_cases (r : Range) :
    r.normalize = r ∨ r.normalize = r.makeTop := by
  unfold Range.normalize
  split_ifs <;> simp

/-- In a signed concrete interval whose bound patterns are
`[2^(w-1), 2^(w-1) - 1]` (the patterns of signed `MIN` and `MAX`), every
`w`-bit pattern lies between the bounds in signed order. -/
theorem toSigned_full_range (w x : Nat) (hx : x < 2 ^ w) :
    toSigned w (2 ^ (w - 1)) ≤ toSigned w x ∧
    toSigned w x ≤ toSigned w (2 ^ (w - 1) - 1) := by
  have h1 : 0 < 2 ^ (w - 1) := pow_pos (by norm_num) (w - 1)
  rcases Nat.eq_zero_or_pos w with hw | hw
  · subst hw
    interval_cases x
    decide
  · have h2 : 2 ^ w = 2 ^ (w - 1) * 2 := by
      rw [← pow_succ]
      congr 1
      omega
    have hcast : ((2 : Int)) ^ w = ((2 ^ w : Nat) : Int) := by
      push_cast
      ring
    unfold toSigned
    split_ifs <;> (try simp only [hcast]) <;> omega

/-- C10: `normalize` never changes the concretization (the only rewrite it
performs, full-range bounds to Top, denotes the same set of `width`-bit
patterns), and consequently `normalize` is idempotent. -/
theorem normalize_preserves_gamma (r : Range) :
    r.normalize.gamma = r.gamma ∧ r.normalize.normalize = r.normalize := by
  constructor
  · unfold Range.normalize
    split_ifs with h1 h2 h3 h4 h5
    · rfl
    · rfl
    · -- signed full range collapses to Top: same concretization
      ext x
      simp only [Range.gamma, Set.mem_setOf_eq, Range.gammaMem,
        Range.makeTop, h1, h2, h3, h4.1, h4.2, Bool.false_eq_true,
        if_false, if_true, Bool.and_eq_true, decide_eq_true_eq]
      constructor
      · intro hx
        exact ⟨⟨hx, (toSigned_full_range r.width x hx).1⟩,
          (toSigned_full_range r.width x hx).2⟩
      · rintro ⟨⟨hx, -⟩, -⟩
        exact hx
    · rfl
    · -- unsigned full range collapses to Top: same concretization
      ext x
      simp only [Range.gamma, Set.mem_setOf_eq, Range.gammaMem,
        Range.makeTop, h1, h2, h3, h5.1, h5.2, Bool.false_eq_true,
        if_false, if_true, Bool.and_eq_true, decide_eq_true_eq]
      omega
    · rfl
  · rcases normalize_cases r with h | h
    · simp only [h]
    · rw [h, normalize_of_isTop]
      rfl

end Unimelb
